import Mathlib

/-!
Verification of the square-root UKF implementation in
`UKFpython/src/ukf/ukfFMU.py` against its natural-language specification.

The Python source is shallowly embedded below.  Scalars computed exactly by
the source (sums, products, quotients of the inputs) are modelled over `ℚ`;
the Cholesky update, whose body calls `np.sqrt`, is modelled over `ℝ` with
`Real.sqrt` standing for the floating-point square root (exact arithmetic,
no rounding).  Vectors and matrices are lists resp. lists of rows, and the
numpy slice assignments are translated index-wise with `List.set` /
`List.getD`; out-of-range reads default to `0`, matching the shapes the
source assumes (numpy raises on genuinely incompatible shapes, which no
claim exercises).
-/

/-- Configuration fields of the `ukfFMU` object used by `constrainedState`
and `computeSigmaPoints`: the dimensions set in `__init__` together with the
constraint tables (`ConstrStateHigh`, ... are numpy arrays holding
truth-values; they are modelled as `List Bool`) and the scalar `sqrtC`
(held abstractly: the source computes it as `alpha*sqrt(k+n)` and the
sigma-point code only multiplies by it). -/
structure UkfConfig where
  n_state : ℕ
  n_state_obs : ℕ
  n_pars : ℕ
  sqrtC : ℚ
  ConstrStateHigh : List Bool
  ConstrStateLow : List Bool
  ConstrStateValueHigh : List ℚ
  ConstrStateValueLow : List ℚ
  ConstrParsHigh : List Bool
  ConstrParsLow : List Bool
  ConstrParsValueHigh : List ℚ
  ConstrParsValueLow : List ℚ

/-- Embeds `ukfFMU.constrainedState` (ukfFMU.py lines 157-183).  The first
loop clamps observed-state entries `X[i]` (`i < n_state_obs`) to their
active bounds; the second loop clamps the parameter entries, reading and
writing `X[self.n_state + i]` exactly as the source does (note: the source
uses `n_state`, not `n_state_obs`, as the offset).  Each Python `if`
performs the read after any earlier write, which the sequenced `let`s
reproduce. -/
def constrainedState (cfg : UkfConfig) (X : List ℚ) : List ℚ :=
  let X1 := (List.range cfg.n_state_obs).foldl (fun A i =>
    let A1 := if cfg.ConstrStateHigh.getD i false = true ∧
                 cfg.ConstrStateValueHigh.getD i 0 < A.getD i 0
              then A.set i (cfg.ConstrStateValueHigh.getD i 0) else A
    if cfg.ConstrStateLow.getD i false = true ∧
       A1.getD i 0 < cfg.ConstrStateValueLow.getD i 0
    then A1.set i (cfg.ConstrStateValueLow.getD i 0) else A1) X
  (List.range cfg.n_pars).foldl (fun A i =>
    let A1 := if cfg.ConstrParsHigh.getD i false = true ∧
                 cfg.ConstrParsValueHigh.getD i 0 < A.getD (cfg.n_state + i) 0
              then A.set (cfg.n_state + i) (cfg.ConstrParsValueHigh.getD i 0) else A
    if cfg.ConstrParsLow.getD i false = true ∧
       A1.getD (cfg.n_state + i) 0 < cfg.ConstrParsValueLow.getD i 0
    then A1.set (cfg.n_state + i) (cfg.ConstrParsValueLow.getD i 0) else A1) X1

/-- Embeds the non-augmented branch (`self.augmented = False`) of
`ukfFMU.computeSigmaPoints` (ukfFMU.py lines 185-296).  The two `reshape`
guards succeed exactly when the inputs have sizes `n_state_obs` and
`n_pars`; on failure the source prints a message and returns `np.array([])`,
modelled by `[]`.  Row `0` of the result is `hstack((x, pars))`; for each
row `r` of `sqrtP` the source writes `xs0 + sqrtC*r` at index `i` and
`xs0 - sqrtC*r` at index `i+N` (the two slice assignments
`[0:n_state_obs]` and `[n_state_obs:]` together cover the whole row), then
applies `constrainedState` to both rows.  Rows of the preallocated
`np.zeros` matrix not reached when `sqrtP` has fewer than `N` rows remain
zero, hence the padding. -/
def computeSigmaPoints (cfg : UkfConfig) (x pars : List ℚ)
    (sqrtP : List (List ℚ)) : List (List ℚ) :=
  if x.length ≠ cfg.n_state_obs then [] else
  if pars.length ≠ cfg.n_pars then [] else
  let xs0 := x ++ pars
  let N := cfg.n_state_obs + cfg.n_pars
  let zeroRow := List.replicate N (0 : ℚ)
  let plus := sqrtP.map (fun r =>
    constrainedState cfg (List.zipWith (fun a b => a + cfg.sqrtC * b) xs0 r))
  let minus := sqrtP.map (fun r =>
    constrainedState cfg (List.zipWith (fun a b => a - cfg.sqrtC * b) xs0 r))
  xs0 :: ((plus ++ List.replicate (N - sqrtP.length) zeroRow) ++
          (minus ++ List.replicate (N - sqrtP.length) zeroRow))

/-- Embeds `ukfFMU.computeWeights` (ukfFMU.py lines 121-137): given `n = N`
and the current `alpha`, `beta`, `lambd`, the mean weights are
`lambd/(n+lambd)` at index 0 followed by `2n` copies of `1/(2(n+lambd))`,
and the covariance weights additionally add `1 - alpha^2 + beta` at index
0.  Returns `(W_m, W_c)`. -/
def computeWeights (n : ℕ) (alpha beta lambd : ℚ) : List ℚ × List ℚ :=
  (lambd / (n + lambd) :: List.replicate (2 * n) (1 / (2 * (n + lambd))),
   (lambd / (n + lambd) + (1 - alpha ^ 2 + beta)) ::
     List.replicate (2 * n) (1 / (2 * (n + lambd))))

/-- Symbolic value `coeff * sqrt radicand`, recording how the source
computes `self.sqrtC = self.alpha*np.sqrt(self.k + n)`. -/
structure SqrtTerm where
  coeff : ℚ
  radicand : ℚ
deriving DecidableEq

/-- Failure channels of the hyperparameter update: the error the
specification assigns to validation, and the Python `ZeroDivisionError`
that `computeWeights` actually raises when its weight denominator
`n + lambd` is zero. -/
inductive UkfError where
  | invalidUkfParameter
  | zeroDivisionError
deriving DecidableEq

/-- The filter fields recomputed by `setUKFparams`. -/
structure UkfParams where
  alpha : ℚ
  beta : ℚ
  k : ℚ
  lambd : ℚ
  sqrtC : SqrtTerm
  W_m : List ℚ
  W_c : List ℚ
deriving DecidableEq

/-- Embeds `ukfFMU.setUKFparams` (ukfFMU.py lines 101-119).  With `n = N`:
stores `alpha` and `beta`, defaults `k` to `3 - n` when the caller passed
`None`, recomputes `lambd = alpha^2*(n+k) - n` and
`sqrtC = alpha*sqrt(k+n)`, and calls `computeWeights`.  The body performs
no validation and contains no `raise` of its own, so the only failure is
the `ZeroDivisionError` Python raises inside `computeWeights` when the
weight denominator `n + lambd` is zero (`lambd/(n + lambd)`, line 132,
on plain Python numbers); the guard below tests exactly that denominator
before the call.  `computeWeights` itself is embedded totally over `ℚ` and
is only reached on the nonzero path, where its division coincides with the
source.  `InvalidUkfParameter` is never produced. -/
def setUKFparams (n : ℕ) (alpha beta : ℚ) (kOpt : Option ℚ) :
    Except UkfError UkfParams :=
  let k := match kOpt with
    | none => 3 - (n : ℚ)
    | some k => k
  let lambd := alpha ^ 2 * ((n : ℚ) + k) - n
  if (n : ℚ) + lambd = 0 then Except.error UkfError.zeroDivisionError
  else
    let w := computeWeights n alpha beta lambd
    Except.ok { alpha := alpha, beta := beta, k := k, lambd := lambd,
                sqrtC := ⟨alpha, k + n⟩, W_m := w.1, W_c := w.2 }

/-- Number of positional arguments (beyond `self`) that the signature
`def computeSigmaPoints(self, x, pars, sqrtP, sqrtQ = None, sqrtR = None)`
(ukfFMU.py line 185) requires: `x`, `pars` and `sqrtP` have no default. -/
def computeSigmaPointsRequiredArgs : ℕ := 3

/-- Number of optional positional arguments of the same signature:
`sqrtQ` and `sqrtR` default to `None`. -/
def computeSigmaPointsOptionalArgs : ℕ := 2

/-- Number of positional arguments (beyond `self`) supplied at the
smoother's redraw call site `Xs_i = self.computeSigmaPoints(x_i, S_i)`
(ukfFMU.py line 779). -/
def smoothSigmaRedrawCallArgs : ℕ := 2

/-- A Python call binds successfully iff it supplies at least the required
and at most the required plus optional positional arguments; otherwise the
interpreter raises `TypeError` before the body runs. -/
def pyCallBinds (supplied required optional : ℕ) : Bool :=
  required ≤ supplied && supplied ≤ required + optional

/-- All constraint tables of a configuration are inactive (every stored
truth-value is `False`, the state `__init__` establishes by default). -/
abbrev constraintsInactive (cfg : UkfConfig) : Prop :=
  (∀ b ∈ cfg.ConstrStateHigh, b = false) ∧
  (∀ b ∈ cfg.ConstrStateLow, b = false) ∧
  (∀ b ∈ cfg.ConstrParsHigh, b = false) ∧
  (∀ b ∈ cfg.ConstrParsLow, b = false)

-- Helper lemmas -------------------------------------------------------------

lemma foldl_eq_init {α β : Type} (step : α → β → α) (l : List β) (st : α)
    (h : ∀ a b, b ∈ l → step a b = a) : l.foldl step st = st := by
  induction l generalizing st with
  | nil => rfl
  | cons b t ih =>
      rw [List.foldl_cons, h st b (List.mem_cons_self b t)]
      exact ih st (fun a b' hb' => h a b' (List.mem_cons_of_mem b hb'))

lemma allFalse_getD (l : List Bool) (h : ∀ b ∈ l, b = false) (i : ℕ) :
    (l[i]?).getD false = false := by
  induction l generalizing i with
  | nil => simp
  | cons b t ih =>
      cases i with
      | zero => simpa using h b (List.mem_cons_self b t)
      | succ j =>
          simpa using ih (fun b' hb' => h b' (List.mem_cons_of_mem b hb')) j

lemma constrainedState_inactive (cfg : UkfConfig)
    (h : constraintsInactive cfg) (X : List ℚ) :
    constrainedState cfg X = X := by
  obtain ⟨h1, h2, h3, h4⟩ := h
  unfold constrainedState
  rw [foldl_eq_init, foldl_eq_init]
  · intro A i _
    simp [allFalse_getD _ h1, allFalse_getD _ h2]
  · intro A i _
    simp [allFalse_getD _ h3, allFalse_getD _ h4]

-- C3 ------------------------------------------------------------------------

/-- C3 counterexample: the claim asserts that `setUKFparams` fails with
`InvalidUkfParameter` whenever `alpha ≤ 0`; at the concrete input
`alpha = -1 ≤ 0` (with `N = 2`, `beta = 2`, `kappa = 1`) the call does not
produce that error — it returns a recomputed parameter set. -/
theorem C3_setUKFparams_accepts_nonpositive_alpha :
    ((-1 : ℚ) ≤ 0) ∧ (setUKFparams 2 (-1) 2 (some 1)).isOk = true := by
  refine ⟨by norm_num, ?_⟩
  norm_num [setUKFparams, Except.isOk, Except.toBool]

/-- C3 amended: `setUKFparams` performs no validation: it never produces
`InvalidUkfParameter`.  Whenever the weight denominator
`N + lambda = alpha^2*(N+kappa)` is nonzero — in particular also for
`alpha < 0` or `N + kappa < 0` — it succeeds and recomputes `k`
(defaulting to `3 - N`), `lambd = alpha^2*(N+k) - N`,
`sqrtC = alpha*sqrt(k+N)`, `W_m` and `W_c`; when `alpha^2*(N+kappa) = 0`
(for example `alpha = 0` or `kappa = -N`) the recomputation instead dies
with the `ZeroDivisionError` raised inside `computeWeights`. -/
theorem C3_setUKFparams_no_validation
    (n : ℕ) (alpha beta : ℚ) (kOpt : Option ℚ) :
    setUKFparams n alpha beta kOpt ≠
        Except.error UkfError.invalidUkfParameter ∧
      (alpha ^ 2 * ((n : ℚ) + kOpt.getD (3 - (n : ℚ))) = 0 →
        setUKFparams n alpha beta kOpt =
          Except.error UkfError.zeroDivisionError) ∧
      (alpha ^ 2 * ((n : ℚ) + kOpt.getD (3 - (n : ℚ))) ≠ 0 →
        ∃ r : UkfParams, setUKFparams n alpha beta kOpt = Except.ok r ∧
          r.k = kOpt.getD (3 - (n : ℚ)) ∧
          r.lambd = alpha ^ 2 * ((n : ℚ) + r.k) - n ∧
          r.sqrtC = ⟨alpha, r.k + n⟩ ∧
          r.W_m = (computeWeights n alpha beta r.lambd).1 ∧
          r.W_c = (computeWeights n alpha beta r.lambd).2) := by
  have hgetD : (match kOpt with
      | none => 3 - (n : ℚ)
      | some k => k) = kOpt.getD (3 - (n : ℚ)) := by
    cases kOpt <;> rfl
  have heq : (n : ℚ) +
      (alpha ^ 2 * ((n : ℚ) + kOpt.getD (3 - (n : ℚ))) - n) =
      alpha ^ 2 * ((n : ℚ) + kOpt.getD (3 - (n : ℚ))) := by ring
  by_cases hc : alpha ^ 2 * ((n : ℚ) + kOpt.getD (3 - (n : ℚ))) = 0
  · have hval : setUKFparams n alpha beta kOpt =
        Except.error UkfError.zeroDivisionError := by
      simp only [setUKFparams, hgetD]
      rw [if_pos (by rw [heq]; exact hc)]
    refine ⟨?_, fun _ => hval, fun h => absurd hc h⟩
    rw [hval]
    simp
  · have hval : ∃ r : UkfParams,
        setUKFparams n alpha beta kOpt = Except.ok r ∧
        r.k = kOpt.getD (3 - (n : ℚ)) ∧
        r.lambd = alpha ^ 2 * ((n : ℚ) + r.k) - n ∧
        r.sqrtC = ⟨alpha, r.k + n⟩ ∧
        r.W_m = (computeWeights n alpha beta r.lambd).1 ∧
        r.W_c = (computeWeights n alpha beta r.lambd).2 := by
      refine ⟨{ alpha := alpha, beta := beta,
                k := kOpt.getD (3 - (n : ℚ)),
                lambd := alpha ^ 2 * ((n : ℚ) +
                  kOpt.getD (3 - (n : ℚ))) - n,
                sqrtC := ⟨alpha, kOpt.getD (3 - (n : ℚ)) + n⟩,
                W_m := (computeWeights n alpha beta (alpha ^ 2 *
                  ((n : ℚ) + kOpt.getD (3 - (n : ℚ))) - n)).1,
                W_c := (computeWeights n alpha beta (alpha ^ 2 *
                  ((n : ℚ) + kOpt.getD (3 - (n : ℚ))) - n)).2 },
        ?_, rfl, rfl, rfl, rfl, rfl⟩
      simp only [setUKFparams, hgetD]
      rw [if_neg (by rw [heq]; exact hc)]
    obtain ⟨r, hr, hrest⟩ := hval
    refine ⟨?_, fun h => absurd h hc, fun _ => ⟨r, hr, hrest⟩⟩
    rw [hr]
    simp

/-- Witness for the amended C3 at `N = 2`, `alpha = -1`, `beta = 2`,
`kappa = 1` (so `alpha^2*(N+kappa) = 3 ≠ 0`): the call succeeds and
recomputes the parameter set. -/
theorem C3_setUKFparams_no_validation_witness :
    ((-1 : ℚ) ^ 2 * (((2 : ℕ) : ℚ) + (some (1 : ℚ)).getD
        (3 - ((2 : ℕ) : ℚ))) ≠ 0) ∧
      (∃ r : UkfParams, setUKFparams 2 (-1) 2 (some 1) = Except.ok r ∧
        r.k = (some (1 : ℚ)).getD (3 - ((2 : ℕ) : ℚ)) ∧
        r.lambd = (-1 : ℚ) ^ 2 * (((2 : ℕ) : ℚ) + r.k) - 2 ∧
        r.sqrtC = ⟨-1, r.k + 2⟩ ∧
        r.W_m = (computeWeights 2 (-1) 2 r.lambd).1 ∧
        r.W_c = (computeWeights 2 (-1) 2 r.lambd).2) :=
  ⟨by norm_num,
    (C3_setUKFparams_no_validation 2 (-1) 2 (some 1)).2.2 (by norm_num)⟩

-- C4 ------------------------------------------------------------------------

/-- C4: for every `N ≥ 1` and valid hyperparameters (`alpha > 0`,
`N + kappa > 0`, hence `N + lambda = alpha^2*(N+kappa) ≠ 0`), the mean
weights produced by `computeWeights` with `lambd = alpha^2*(N+kappa) - N`
sum exactly to one: `lambd/(N+lambd) + 2N * 1/(2(N+lambd)) = 1`. -/
theorem C4_mean_weights_sum_to_one (n : ℕ) (alpha beta kappa : ℚ)
    (hn : 1 ≤ n) (ha : 0 < alpha) (hk : 0 < (n : ℚ) + kappa) :
    ((computeWeights n alpha beta (alpha ^ 2 * ((n : ℚ) + kappa) - n)).1).sum
      = 1 := by
  have hd : (n : ℚ) + (alpha ^ 2 * ((n : ℚ) + kappa) - n) =
      alpha ^ 2 * ((n : ℚ) + kappa) := by ring
  have hpos : (0 : ℚ) < alpha ^ 2 * ((n : ℚ) + kappa) :=
    mul_pos (pow_pos ha 2) hk
  have hne : (n : ℚ) + (alpha ^ 2 * ((n : ℚ) + kappa) - n) ≠ 0 := by
    rw [hd]; exact ne_of_gt hpos
  simp only [computeWeights, List.sum_cons, List.sum_replicate, nsmul_eq_mul]
  push_cast
  field_simp
  ring

/-- Witness for C4 at `N = 2`, `alpha = 1`, `beta = 2`, `kappa = 1`. -/
theorem C4_mean_weights_sum_to_one_witness :
    ((1 ≤ 2) ∧ (0 : ℚ) < 1 ∧ (0 : ℚ) < (2 : ℕ) + 1) ∧
      ((computeWeights 2 1 2 (1 ^ 2 * (((2 : ℕ) : ℚ) + 1) - 2)).1).sum = 1 :=
  ⟨⟨by norm_num, by norm_num, by norm_num⟩,
    C4_mean_weights_sum_to_one 2 1 2 1 (by norm_num) (by norm_num)
      (by norm_num)⟩

-- C5 ------------------------------------------------------------------------

/-- C5: in non-augmented mode, for a mean `x` of length `n_state_obs`, a
parameter vector of length `n_pars` and an `N`-by-`N` factor `sqrtP`
(`N = n_state_obs + n_pars`), with no constraints active,
`computeSigmaPoints` returns the `(1+2N)`-row matrix whose row `0` is
`[x | pars]`, whose row `i` (`1 ≤ i ≤ N`) is row `0` plus `sqrtC` times the
`i`-th row of `sqrtP`, and whose row `i+N` is row `0` minus `sqrtC` times
the `i`-th row of `sqrtP`. -/
theorem C5_sigma_points_structure (cfg : UkfConfig) (x pars : List ℚ)
    (sqrtP : List (List ℚ))
    (hx : x.length = cfg.n_state_obs) (hp : pars.length = cfg.n_pars)
    (hP : sqrtP.length = cfg.n_state_obs + cfg.n_pars)
    (hsq : ∀ r ∈ sqrtP, r.length = cfg.n_state_obs + cfg.n_pars)
    (hc : constraintsInactive cfg) :
    computeSigmaPoints cfg x pars sqrtP =
      (x ++ pars) ::
        (sqrtP.map (fun r =>
            List.zipWith (fun a b => a + cfg.sqrtC * b) (x ++ pars) r) ++
         sqrtP.map (fun r =>
            List.zipWith (fun a b => a - cfg.sqrtC * b) (x ++ pars) r)) := by
  unfold computeSigmaPoints
  rw [if_neg (by simp [hx]), if_neg (by simp [hp])]
  have hzero : cfg.n_state_obs + cfg.n_pars - sqrtP.length = 0 := by omega
  simp [hzero, constrainedState_inactive cfg hc]

/-- Shared concrete configuration with every constraint inactive,
`n_state = n_state_obs = 1`, `n_pars = 1`, `sqrtC = 2`. -/
def cfgInactive : UkfConfig :=
  { n_state := 1, n_state_obs := 1, n_pars := 1, sqrtC := 2,
    ConstrStateHigh := [false], ConstrStateLow := [false],
    ConstrStateValueHigh := [0], ConstrStateValueLow := [0],
    ConstrParsHigh := [false], ConstrParsLow := [false],
    ConstrParsValueHigh := [0], ConstrParsValueLow := [0] }

/-- Witness for C5 at `x = [1]`, `pars = [2]`, `sqrtP = [[1,0],[0,1]]`. -/
theorem C5_sigma_points_structure_witness :
    (([(1 : ℚ)].length = cfgInactive.n_state_obs) ∧
     ([(2 : ℚ)].length = cfgInactive.n_pars) ∧
     ([[(1 : ℚ), 0], [0, 1]].length =
        cfgInactive.n_state_obs + cfgInactive.n_pars) ∧
     (∀ r ∈ [[(1 : ℚ), 0], [0, 1]],
        r.length = cfgInactive.n_state_obs + cfgInactive.n_pars) ∧
     constraintsInactive cfgInactive) ∧
    computeSigmaPoints cfgInactive [1] [2] [[1, 0], [0, 1]] =
      ([(1 : ℚ)] ++ [2]) ::
        ([[(1 : ℚ), 0], [0, 1]].map (fun r =>
            List.zipWith (fun a b => a + cfgInactive.sqrtC * b)
              ([(1 : ℚ)] ++ [2]) r) ++
         [[(1 : ℚ), 0], [0, 1]].map (fun r =>
            List.zipWith (fun a b => a - cfgInactive.sqrtC * b)
              ([(1 : ℚ)] ++ [2]) r)) :=
  ⟨⟨by decide, by decide, by decide, by decide, by decide⟩,
    C5_sigma_points_structure cfgInactive [1] [2] [[1, 0], [0, 1]]
      (by decide) (by decide) (by decide) (by decide) (by decide)⟩

-- C6 ------------------------------------------------------------------------

/-- C6: whenever the state vector cannot be reshaped to length
`n_state_obs` (or, the state vector fitting, the parameter vector cannot be
reshaped to length `n_pars`), `computeSigmaPoints` returns the empty matrix
instead of raising. -/
theorem C6_sigma_points_dimension_mismatch_empty (cfg : UkfConfig)
    (x pars : List ℚ) (sqrtP : List (List ℚ))
    (h : x.length ≠ cfg.n_state_obs ∨ pars.length ≠ cfg.n_pars) :
    computeSigmaPoints cfg x pars sqrtP = [] := by
  unfold computeSigmaPoints
  rcases h with h | h
  · rw [if_pos h]
  · by_cases hx : x.length = cfg.n_state_obs
    · rw [if_neg (by simp [hx]), if_pos h]
    · rw [if_pos hx]

/-- Witness for C6: a state vector of length 2 where `n_state_obs = 1`. -/
theorem C6_sigma_points_dimension_mismatch_empty_witness :
    (([(1 : ℚ), 2].length ≠ cfgInactive.n_state_obs) ∨
      ([(3 : ℚ)].length ≠ cfgInactive.n_pars)) ∧
    computeSigmaPoints cfgInactive [1, 2] [3] [[1, 0], [0, 1]] = [] :=
  ⟨Or.inl (by decide),
    C6_sigma_points_dimension_mismatch_empty cfgInactive [1, 2] [3]
      [[1, 0], [0, 1]] (Or.inl (by decide))⟩

-- C1 ------------------------------------------------------------------------

/-- Configuration exhibiting the parameter-constraint misindexing:
`n_state = 2 > n_state_obs = 1`, `n_pars = 2`, and an active upper bound
`3/2` on parameter index `0` (as in the spec scenario "upper constraint of
1.5 on parameter index 0"). -/
def cfgC1 : UkfConfig :=
  { n_state := 2, n_state_obs := 1, n_pars := 2, sqrtC := 0,
    ConstrStateHigh := [false], ConstrStateLow := [false],
    ConstrStateValueHigh := [0], ConstrStateValueLow := [0],
    ConstrParsHigh := [true, false], ConstrParsLow := [false, false],
    ConstrParsValueHigh := [3/2, 0], ConstrParsValueLow := [0, 0] }

/-- C1: evaluation at the failing input.  The corrected augmented vector in
`ukf_step` is laid out `[observed (n_state_obs) | parameters (n_pars)]`
(its parameter slice is read at offset `n_state_obs` on line 716), but
`constrainedState` clamps parameter `i` at offset `n_state + i` (line 176).
With `n_state = 2 > n_state_obs = 1` and the active bound `3/2` on
parameter `0`, clamping the vector `[0, 3, 2]` leaves the parameter-0 entry
(index `n_state_obs + 0 = 1`) at `3`, violating the bound, and instead
clamps index `2` (parameter 1's slot) to `3/2`. -/
theorem C1_constrainedState_misindexes_parameters :
    constrainedState cfgC1 [0, 3, 2] = [0, 3, 3/2] ∧
      ¬ ((constrainedState cfgC1 [0, 3, 2]).getD
            (cfgC1.n_state_obs + 0) 0 ≤ cfgC1.ConstrParsValueHigh.getD 0 0) := by
  have h : constrainedState cfgC1 [0, 3, 2] = [0, 3, 3/2] := by
    norm_num [constrainedState, cfgC1, List.range_succ, List.getD, List.set]
  refine ⟨h, ?_⟩
  rw [h]
  norm_num [cfgC1, List.getD]

-- C2 ------------------------------------------------------------------------

/-- C2: the smoother's redraw call `self.computeSigmaPoints(x_i, S_i)`
supplies 2 positional arguments while the signature requires the 3
arguments `x`, `pars`, `sqrtP`; the call cannot bind, so Python raises
`TypeError` before any sigma point is generated — the backward iteration
never redraws (nor propagates) sigma points at `X_smooth[k]`,
`S_smooth[k]`. -/
theorem C2_smooth_redraw_call_does_not_bind :
    pyCallBinds smoothSigmaRedrawCallArgs computeSigmaPointsRequiredArgs
      computeSigmaPointsOptionalArgs = false := by
  decide

-- Cholesky update (ukfFMU.py lines 550-575) ---------------------------------

/-- Embeds `np.sign` on a scalar: `-1`, `0` or `1`. -/
noncomputable def pySign (q : ℝ) : ℝ :=
  if q < 0 then -1 else if 0 < q then 1 else 0

/-- The clamped diagonal entry of one update step of `ukfFMU.cholUpdate`
(lines 567-568): `rr_arg = Lkk**2 + signs[0]*xk**2` and
`rr = 0.0 if rr_arg < 0 else np.sqrt(rr_arg)`. -/
noncomputable def cholRR (sign0 Lkk xk : ℝ) : ℝ :=
  if Lkk ^ 2 + sign0 * xk ^ 2 < 0 then 0
  else Real.sqrt (Lkk ^ 2 + sign0 * xk ^ 2)

/-- Row `k` of the working factor after one update step (lines 567-572):
with `rr = cholRR`, `c = rr/L[k,k]`, `s = x[k]/L[k,k]`, the source assigns
`L[k,k] = rr` and `L[k,k+1:] = (L[k,k+1:] + signs[0]*s*x[k+1:])/c`
(reading the old row tail); entries before the diagonal are untouched.
The row is rebuilt index-wise. -/
noncomputable def cholNewRow (sign0 : ℝ) (k : ℕ) (row x : List ℝ) :
    List ℝ :=
  let Lkk := row.getD k 0
  let xk := x.getD k 0
  let rr := cholRR sign0 Lkk xk
  let c := rr / Lkk
  let s := xk / Lkk
  (List.range row.length).map (fun m =>
    if m = k then rr
    else if k < m then (row.getD m 0 + sign0 * s * x.getD m 0) / c
    else row.getD m 0)

/-- The current column after one update step (line 573):
`x[k+1:] = c*x[k+1:] - s*L[k,k+1:]`, reading the just-updated row tail
(`cholNewRow`); entries up to `k` are untouched. -/
noncomputable def cholNewCol (sign0 : ℝ) (k : ℕ) (row x : List ℝ) :
    List ℝ :=
  let Lkk := row.getD k 0
  let xk := x.getD k 0
  let rr := cholRR sign0 Lkk xk
  let c := rr / Lkk
  let s := xk / Lkk
  (List.range x.length).map (fun m =>
    if k < m then c * x.getD m 0 - s * (cholNewRow sign0 k row x).getD m 0
    else x.getD m 0)

/-- One iteration of the inner `for k in range(row)` loop of
`ukfFMU.cholUpdate` (lines 566-573) acting on the pair (working factor,
current column). -/
noncomputable def cholStep (sign0 : ℝ) (st : List (List ℝ) × List ℝ)
    (k : ℕ) : List (List ℝ) × List ℝ :=
  (st.1.set k (cholNewRow sign0 k (st.1.getD k []) st.2),
   cholNewCol sign0 k (st.1.getD k []) st.2)

/-- The inner loop `for k in range(row)` of `ukfFMU.cholUpdate`, run over
one column. -/
noncomputable def cholCol (sign0 : ℝ) (nrow : ℕ) (L : List (List ℝ))
    (x : List ℝ) : List (List ℝ) × List ℝ :=
  (List.range nrow).foldl (cholStep sign0) (L, x)

/-- Writes the vector `x` back as column `j` of `X`: the source mutates the
caller's `X` in place through the view `x = X[0:, j]`, and the net effect
once the inner loop finishes is this column write-back. -/
def setCol (X : List (List ℝ)) (j : ℕ) (x : List ℝ) : List (List ℝ) :=
  (List.range X.length).map (fun i => (X.getD i []).set j (x.getD i 0))

/-- Embeds `ukfFMU.cholUpdate` (lines 550-575) at the level of values,
given the single sign `signs[0]` already extracted: `(row, col) = X.shape`,
then for each column `j in range(col)` the inner loop updates the working
factor and the column.  Returns the pair (factor after all columns, final
contents of `X`).  The vector `weights = np.sqrt(np.abs(W))` computed on
line 555 is never read afterwards and is omitted. -/
noncomputable def cholUpdateCore (sign0 : ℝ) (L X : List (List ℝ)) :
    List (List ℝ) × List (List ℝ) :=
  let nrow := X.length
  let ncol := (X.getD 0 []).length
  (List.range ncol).foldl (fun st j =>
    ((cholCol sign0 nrow st.1 (st.2.map (fun r => r.getD j 0))).1,
     setCol st.2 j
       (cholCol sign0 nrow st.1 (st.2.map (fun r => r.getD j 0))).2)) (L, X)

/-- Embeds `ukfFMU.cholUpdate` (lines 550-575): the sign vector `W` enters
the computation only through `signs = np.sign(W)`, read exclusively at
index `0` (`signs[0]` in every update step).  The first component of the
result is the returned factor (computed on the private copy made by
`L = L.copy()` on line 554), the second the final contents of the caller's
`X`, which the loop mutates through the column views `x = X[0:, j]`. -/
noncomputable def cholUpdate (L X : List (List ℝ)) (W : List ℝ) :
    List (List ℝ) × List (List ℝ) :=
  cholUpdateCore (pySign (W.getD 0 0)) L X

/-- Store of numpy arrays addressed by object identity, used to state the
frame effect of `cholUpdate` on the caller's arrays. -/
def MatHeap := ℕ → List (List ℝ)

/-- Heap update at a single address. -/
def writeMat (h : MatHeap) (a : ℕ) (v : List (List ℝ)) : MatHeap :=
  fun b => if b = a then v else h b

/-- Embeds the call `cholUpdate(L, X, W)` at the level of references: `aL`
and `aX` are the addresses of the caller's arguments and `aLloc` a fresh
address receiving the private copy created by `L = L.copy()` (line 554).
Every factor write of the loop targets the copy at `aLloc`; every write
through the column views `x = X[0:, j]` targets `aX`.  Returns the final
heap together with the address of the returned factor. -/
noncomputable def cholUpdateRef (h : MatHeap) (aL aX aLloc : ℕ)
    (W : List ℝ) : MatHeap × ℕ :=
  let h1 := writeMat h aLloc (h aL)
  let res := cholUpdateCore (pySign (W.getD 0 0)) (h1 aLloc) (h1 aX)
  (writeMat (writeMat h1 aLloc res.1) aX res.2, aLloc)

-- Helper lemmas for the Cholesky update -------------------------------------

lemma cholRR_nonneg (sign0 Lkk xk : ℝ) : 0 ≤ cholRR sign0 Lkk xk := by
  unfold cholRR
  split
  · exact le_refl 0
  · exact Real.sqrt_nonneg _

lemma cholNewRow_diag_nonneg (sign0 : ℝ) (k : ℕ) (row x : List ℝ) :
    0 ≤ (cholNewRow sign0 k row x).getD k 0 := by
  simp only [cholNewRow, List.getD_eq_getElem?_getD]
  by_cases hk : k < row.length
  · rw [List.getElem?_map, List.getElem?_range hk]
    simpa using cholRR_nonneg sign0 (row[k]?.getD 0) (x[k]?.getD 0)
  · rw [List.getElem?_eq_none (by simpa using Nat.le_of_not_lt hk)]
    exact le_refl 0

lemma cholStep_row_ne (sign0 : ℝ) (st : List (List ℝ) × List ℝ)
    (j k : ℕ) (h : j ≠ k) : ((cholStep sign0 st j).1)[k]? = st.1[k]? := by
  simp only [cholStep]
  exact List.getElem?_set_ne h

lemma cholStep_diag_nonneg (sign0 : ℝ) (st : List (List ℝ) × List ℝ)
    (k : ℕ) : 0 ≤ ((cholStep sign0 st k).1.getD k []).getD k 0 := by
  have h1 : (cholStep sign0 st k).1
      = st.1.set k (cholNewRow sign0 k (st.1.getD k []) st.2) := rfl
  rw [h1]
  by_cases hk : k < st.1.length
  · have h2 : (st.1.set k (cholNewRow sign0 k (st.1.getD k []) st.2)).getD k []
        = cholNewRow sign0 k (st.1.getD k []) st.2 := by
      rw [List.getD_eq_getElem?_getD, List.getElem?_set_self hk]
      rfl
    rw [h2]
    exact cholNewRow_diag_nonneg sign0 k _ st.2
  · have h2 : (st.1.set k (cholNewRow sign0 k (st.1.getD k []) st.2)).getD k []
        = ([] : List ℝ) := by
      rw [List.getD_eq_getElem?_getD, List.getElem?_eq_none]
      · rfl
      · simpa using Nat.le_of_not_lt hk
    rw [h2]
    simp [List.getD]

lemma foldl_cholStep_row_ne (sign0 : ℝ) (k : ℕ) :
    ∀ (l : List ℕ) (st : List (List ℝ) × List ℝ), k ∉ l →
      ((l.foldl (cholStep sign0) st).1)[k]? = st.1[k]? := by
  intro l
  induction l with
  | nil => intro st _; rfl
  | cons a t ih =>
      intro st hk
      rw [List.foldl_cons,
        ih _ (fun hmem => hk (List.mem_cons_of_mem a hmem))]
      exact cholStep_row_ne sign0 st a k
        (fun h => hk (h ▸ List.mem_cons_self a t))

lemma foldl_cholStep_diag_nonneg (sign0 : ℝ) (k : ℕ) :
    ∀ (l : List ℕ) (st : List (List ℝ) × List ℝ), k ∈ l →
      0 ≤ ((l.foldl (cholStep sign0) st).1.getD k []).getD k 0 := by
  intro l
  induction l with
  | nil => intro st h; cases h
  | cons a t ih =>
      intro st hk
      rw [List.foldl_cons]
      by_cases hmem : k ∈ t
      · exact ih _ hmem
      · have ha : a = k := by
          rcases List.mem_cons.mp hk with h | h
          · exact h.symm
          · exact absurd h hmem
        rw [List.getD_eq_getElem?_getD, List.getD_eq_getElem?_getD,
          foldl_cholStep_row_ne sign0 k t _ hmem,
          ← List.getD_eq_getElem?_getD, ← List.getD_eq_getElem?_getD, ha]
        exact cholStep_diag_nonneg sign0 st k

lemma cholCol_diag_nonneg (sign0 : ℝ) (nrow : ℕ) (L : List (List ℝ))
    (x : List ℝ) (k : ℕ) (hk : k < nrow) :
    0 ≤ ((cholCol sign0 nrow L x).1.getD k []).getD k 0 :=
  foldl_cholStep_diag_nonneg sign0 k (List.range nrow) (L, x)
    (List.mem_range.mpr hk)

-- C8 ------------------------------------------------------------------------

/-- C8: the result of `cholUpdate(L, X, W)` depends on the sign vector `W`
only through the sign of its first entry: every update step of every
column uses the single scalar `signs[0]`, so two sign vectors whose first
entries have the same sign produce identical results. -/
theorem C8_cholUpdate_depends_only_on_sign0 (L X : List (List ℝ))
    (W W' : List ℝ) (h : pySign (W.getD 0 0) = pySign (W'.getD 0 0)) :
    cholUpdate L X W = cholUpdate L X W' := by
  unfold cholUpdate
  rw [h]

/-- Witness for C8 at `W = [2]`, `W' = [5]` (both first entries positive). -/
theorem C8_cholUpdate_depends_only_on_sign0_witness :
    pySign (([(2 : ℝ)]).getD 0 0) = pySign (([(5 : ℝ)]).getD 0 0) ∧
      cholUpdate [[1]] [[1]] [2] = cholUpdate [[1]] [[1]] [5] := by
  have h : pySign (([(2 : ℝ)]).getD 0 0) = pySign (([(5 : ℝ)]).getD 0 0) := by
    norm_num [pySign, List.getD]
  exact ⟨h, C8_cholUpdate_depends_only_on_sign0 [[1]] [[1]] [2] [5] h⟩

-- C9 ------------------------------------------------------------------------

/-- C9: every factor produced by `cholUpdate` has a non-negative diagonal:
each diagonal update stores `rr = sqrt(max(rr_arg, 0)) ≥ 0` at `[k,k]`
(negative `rr_arg` is clamped to `0.0`), and with an update matrix of
matching height and at least one column, every diagonal entry of the
returned factor was last written by such an update. -/
theorem C9_cholUpdate_diagonal_nonneg (L X : List (List ℝ)) (W : List ℝ)
    (hrow : X.length = L.length) (hcol : 1 ≤ (X.getD 0 []).length) :
    ∀ k < L.length, 0 ≤ ((cholUpdate L X W).1.getD k []).getD k 0 := by
  intro k hk
  obtain ⟨m, hm⟩ : ∃ m, (X.getD 0 []).length = Nat.succ m :=
    ⟨(X.getD 0 []).length - 1, by omega⟩
  simp only [cholUpdate, cholUpdateCore]
  rw [hm, List.range_succ, List.foldl_append, List.foldl_cons,
    List.foldl_nil]
  exact cholCol_diag_nonneg _ _ _ _ k (by omega)

/-- Witness for C9 at `L = [[1]]`, `X = [[2]]`, `W = [1]`, diagonal index
`0`. -/
theorem C9_cholUpdate_diagonal_nonneg_witness :
    (([[(2 : ℝ)]].length = [[(1 : ℝ)]].length) ∧
      1 ≤ ([[(2 : ℝ)]].getD 0 []).length ∧ 0 < [[(1 : ℝ)]].length) ∧
    0 ≤ ((cholUpdate [[(1 : ℝ)]] [[2]] [1]).1.getD 0 []).getD 0 0 :=
  ⟨⟨rfl, by norm_num [List.getD], by norm_num⟩,
    C9_cholUpdate_diagonal_nonneg [[1]] [[2]] [1] rfl
      (by norm_num [List.getD]) 0 (by norm_num)⟩

-- C7 ------------------------------------------------------------------------

/-- C7: `cholUpdate` leaves the caller's `L` untouched: the returned factor
is computed on the private copy created by `L = L.copy()` (placed at the
fresh address `aLloc`), and the only in-place writes go through the column
views of `X`, so the heap cell of the argument `L` holds the same matrix
after the call as before. -/
theorem C7_cholUpdate_caller_factor_untouched (h : MatHeap)
    (aL aX aLloc : ℕ) (W : List ℝ) (hc : aL ≠ aLloc) (hx : aL ≠ aX) :
    (cholUpdateRef h aL aX aLloc W).1 aL = h aL := by
  simp [cholUpdateRef, writeMat, hc, hx]

/-- Concrete three-cell heap for the frame-effect witnesses: the caller's
`L = [[3,0],[0,12/5]]` at address `0` and `X = [[4],[3]]` at address `1`. -/
noncomputable def heapLX : MatHeap := fun a =>
  if a = 0 then [[3, 0], [0, 12/5]] else if a = 1 then [[4], [3]] else []

/-- Witness for C7: the call on `heapLX` with the copy placed at address
`2` leaves the caller's factor at address `0` unchanged. -/
theorem C7_cholUpdate_caller_factor_untouched_witness :
    ((0 : ℕ) ≠ 2 ∧ (0 : ℕ) ≠ 1) ∧
      (cholUpdateRef heapLX 0 1 2 [-1]).1 0 = heapLX 0 :=
  ⟨⟨by norm_num, by norm_num⟩,
    C7_cholUpdate_caller_factor_untouched heapLX 0 1 2 [-1]
      (by norm_num) (by norm_num)⟩

-- C10 -----------------------------------------------------------------------

/-- C10: `cholUpdate` mutates its `X` argument in place.  Although the
factor is copied before updating, each column `x = X[0:, j]` is a view of
the caller's matrix and the assignment `x[k+1:] = c*x[k+1:] - s*L[k,k+1:]`
writes through it: after the call on the concrete heap `heapLX`
(`L = [[3,0],[0,12/5]]`, `X = [[4],[3]]`, `W = [1]`), the caller's `X` at
address `1` holds `[[4],[9/5]]`, not its pre-call value `[[4],[3]]`. -/
theorem C10_cholUpdate_mutates_X :
    (cholUpdateRef heapLX 0 1 2 [1]).1 1 ≠ heapLX 1 := by
  have hsign : pySign (1 : ℝ) = 1 := by
    norm_num [pySign]
  have hrr1 : cholRR 1 3 4 = 5 := by
    rw [cholRR, if_neg (by norm_num),
      show (3 : ℝ) ^ 2 + 1 * (4 : ℝ) ^ 2 = 5 ^ 2 by norm_num,
      Real.sqrt_sq (by norm_num : (0 : ℝ) ≤ 5)]
  have hrr2 : cholRR 1 (12/5) (9/5) = 3 := by
    rw [cholRR, if_neg (by norm_num),
      show (12/5 : ℝ) ^ 2 + 1 * (9/5 : ℝ) ^ 2 = 3 ^ 2 by norm_num,
      Real.sqrt_sq (by norm_num : (0 : ℝ) ≤ 3)]
  have hrow1 : cholNewRow 1 0 [3, 0] [4, 3] = [5, 12/5] := by
    norm_num [cholNewRow, List.getD, hrr1, List.range_succ]
  have hcol1 : cholNewCol 1 0 [3, 0] [4, 3] = [4, 9/5] := by
    norm_num [cholNewCol, List.getD, hrr1, hrow1, List.range_succ]
  have hrow2 : cholNewRow 1 1 [0, 12/5] [4, 9/5] = [0, 3] := by
    norm_num [cholNewRow, List.getD, hrr2, List.range_succ]
  have hcol2 : cholNewCol 1 1 [0, 12/5] [4, 9/5] = [4, 9/5] := by
    norm_num [cholNewCol, List.getD, hrr2, hrow2, List.range_succ]
  have hstep1 : cholStep 1 ([[3, 0], [0, 12/5]], [4, 3]) 0
      = ([[5, 12/5], [0, 12/5]], [4, 9/5]) := by
    norm_num [cholStep, List.getD, hrow1, hcol1, List.set]
  have hstep2 : cholStep 1 ([[5, 12/5], [0, 12/5]], [4, 9/5]) 1
      = ([[5, 12/5], [0, 3]], [4, 9/5]) := by
    norm_num [cholStep, List.getD, hrow2, hcol2, List.set]
  have hcolfold : cholCol 1 2 [[3, 0], [0, 12/5]] [4, 3]
      = ([[5, 12/5], [0, 3]], [4, 9/5]) := by
    rw [cholCol, show List.range 2 = [0, 1] from rfl,
      List.foldl_cons, List.foldl_cons, List.foldl_nil, hstep1, hstep2]
  have hcore : cholUpdateCore 1 [[3, 0], [0, 12/5]] [[4], [3]]
      = ([[5, 12/5], [0, 3]], [[4], [9/5]]) := by
    norm_num [cholUpdateCore, List.getD, List.range_succ, hcolfold,
      setCol, List.set]
  have hfinal : (cholUpdateRef heapLX 0 1 2 [1]).1 1 = [[4], [9/5]] := by
    simp only [cholUpdateRef, writeMat]
    norm_num [heapLX, hsign, hcore]
  rw [hfinal]
  norm_num [heapLX]
